import Mathlib

/-!
Shallow embedding of the HiNet translation module
(`mdp/hinet/hinet_translator.py`) and of the miscellaneous bimdp nodes
(`bimdp/nodes/miscnodes.py`) of the mdp-toolkit repository, together with
proofs about the translators.

Modelling conventions:
* a Python HiNet node is the inductive `HNode`; the `other` constructor
  models an arbitrary Python object that is an instance of none of the
  three special classes `mdp.hinet.FlowNode`, `mdp.hinet.CloneLayer`,
  `mdp.hinet.Layer` tested by `HiNetTranslator._translate_node`;
* a Flow is its ordered list of nodes (`List HNode`);
* the nested-list value built by the generic translator is `Translation`;
* every `f.write(...)` call of the HTML translator becomes one element of
  a `List HtmlOut`, one constructor per distinct write site, carrying the
  formatted data of that site;
* numpy arrays passed through `SenderBiNode._execute` are an opaque type
  argument, Python strings in message keys are `List Char`.
-/

/-- Structural variants of a HiNet node, from the classes dispatched on by
`HiNetTranslator._translate_node`.  `standard` is a plain mdp node (its
`tag` stands for the variant-specific attributes that registry predicates
and renderers may inspect), `flownode` wraps the node list of its inner
flow, `layer` holds its ordered children, `clonelayer` holds the shared
prototype together with `len(clonelayer.nodes)`, and `other` is any object
outside the three special classes. -/
inductive HNode where
  | standard (name : String) (input_dim output_dim : Int) (tag : Nat)
  | flownode (inner : List HNode) (input_dim output_dim : Int) (name : String)
  | layer (children : List HNode) (input_dim output_dim : Int) (name : String)
  | clonelayer (proto : HNode) (count : Nat) (input_dim output_dim : Int) (name : String)
  | other (name : String) (input_dim output_dim : Int) (tag : Nat)

/-- The `node.input_dim` attribute read by `_open_node_env`. -/
def HNode.input_dim : HNode → Int
  | .standard _ i _ _ => i
  | .flownode _ i _ _ => i
  | .layer _ i _ _ => i
  | .clonelayer _ _ i _ _ => i
  | .other _ i _ _ => i

/-- The `node.output_dim` attribute read by `_close_node_env`. -/
def HNode.output_dim : HNode → Int
  | .standard _ _ o _ => o
  | .flownode _ _ o _ => o
  | .layer _ _ o _ => o
  | .clonelayer _ _ _ o _ => o
  | .other _ _ o _ => o

/-- The `str(node)` text written by the HTML translator. -/
def HNode.name : HNode → String
  | .standard nm _ _ _ => nm
  | .flownode _ _ _ nm => nm
  | .layer _ _ _ nm => nm
  | .clonelayer _ _ _ _ nm => nm
  | .other nm _ _ _ => nm

/-- Whether a node is a StandardNode variant. -/
def HNode.isStandard : HNode → Bool
  | .standard _ _ _ _ => true
  | _ => false

/-- Value built by the generic `HiNetTranslator`: either the passthrough
node returned by `_translate_standard_node`, or the list built by the
`_translate_flownode` / `_translate_layer` / `_translate_clonelayer`
branches. -/
inductive Translation where
  | node (n : HNode)
  | seq (ts : List Translation)

mutual

/-- `HiNetTranslator._translate_node`: dispatch on the node variant; the
final `else` branch of the Python code (reached by StandardNode instances
and by any object outside the three tested classes) delegates to
`_translate_standard_node`, which returns the node itself. -/
def translate_node : HNode → Translation
  | HNode.flownode inner _ _ _ => Translation.seq (translate_flownode inner)
  | HNode.clonelayer p c _ _ _ => Translation.seq (List.replicate c (translate_node p))
  | HNode.layer ch _ _ _ => Translation.seq (translate_layer_nodes ch)
  | n => Translation.node n

/-- The loop of `HiNetTranslator._translate_flownode` over the nodes of
the flownode's inner flow. -/
def translate_flownode : List HNode → List Translation
  | [] => []
  | n :: ns => translate_node n :: translate_flownode ns

/-- The loop of `HiNetTranslator._translate_layer` over `layer.nodes`. -/
def translate_layer_nodes : List HNode → List Translation
  | [] => []
  | n :: ns => translate_node n :: translate_layer_nodes ns

end

/-- `HiNetTranslator._translate_flow`: the loop appending the translation
of each node of the flow. -/
def translate_flow : List HNode → List Translation
  | [] => []
  | n :: ns => translate_node n :: translate_flow ns

mutual

/-- Instrumented copy of `translate_node` that additionally counts how
many times `HiNetTranslator._translate_node` is entered, so that "the
prototype of a CloneLayer is translated exactly once" is expressible.
The structure mirrors the Python code: `_translate_clonelayer` calls
`self._translate_node(clonelayer.node)` a single time and then builds
`[translated_node] * len(clonelayer.nodes)` from the result. -/
def translate_node_counted : HNode → Translation × Nat
  | HNode.flownode inner _ _ _ =>
      let r := translate_list_counted inner
      (Translation.seq r.1, r.2 + 1)
  | HNode.clonelayer p c _ _ _ =>
      let r := translate_node_counted p
      (Translation.seq (List.replicate c r.1), r.2 + 1)
  | HNode.layer ch _ _ _ =>
      let r := translate_list_counted ch
      (Translation.seq r.1, r.2 + 1)
  | n => (Translation.node n, 1)

/-- Counted form of the per-child loops of `_translate_flownode` and
`_translate_layer` (both loops call `_translate_node` once per child). -/
def translate_list_counted : List HNode → List Translation × Nat
  | [] => ([], 0)
  | n :: ns =>
      let a := translate_node_counted n
      let b := translate_list_counted ns
      (a.1 :: b.1, a.2 + b.2)

end

/-!
Embedding of `bimdp/nodes/miscnodes.py`.
-/

/-- Modelled from the spec: `MSG_ID_SEP`, the reserved separator token of
the bimdp messaging collaborator, imported by `miscnodes.py` but defined
in the bimdp package, which is not under the reviewed sources.  The spec
fixes only that it is a reserved token that must not occur inside a
recipient id; it is modelled as the concrete two-character token used by
the collaborator. -/
def MSG_ID_SEP : List Char := ['-', '>']

/-- The payload name `"msg_x"` used by `SenderBiNode._execute`. -/
def msg_x_name : List Char := ['m', 's', 'g', '_', 'x']

/-- The addressed message key `self._recipient_id + MSG_ID_SEP + "msg_x"`
built by `SenderBiNode._execute`. -/
def sender_key (recipient_id : List Char) : List Char :=
  recipient_id ++ MSG_ID_SEP ++ msg_x_name

/-- `SenderBiNode._execute`.  `recipient_id` is the `_recipient_id`
attribute (`none` models Python `None`); the Python truthiness test
`if self._recipient_id:` is false for both `None` and the empty string.
The returned pair is `(x, msg)`, with `x` replaced by `None` when `no_x`
is truthy; the message dict holds a single entry. -/
def sender_execute {α : Type} (recipient_id : Option (List Char)) (x : α) (no_x : Bool) :
    Option α × List (List Char × α) :=
  let msg : List (List Char × α) :=
    match recipient_id with
    | some rid => if rid.isEmpty then [(msg_x_name, x)] else [(sender_key rid, x)]
    | none => [(msg_x_name, x)]
  ((if no_x then none else some x), msg)

/-- Whether `sep` is an initial run of the second list. -/
def leadsWith : List Char → List Char → Bool
  | [], _ => true
  | _ :: _, [] => false
  | a :: as, b :: bs => a == b && leadsWith as bs

/-- Whether `sep` occurs as a contiguous run somewhere in the list. -/
def hasSub (sep : List Char) : List Char → Bool
  | [] => sep.isEmpty
  | c :: cs => leadsWith sep (c :: cs) || hasSub sep cs

/-- Modelled from the spec: splitting a message key on the first
occurrence of the separator, the key-decoding step of the bimdp messaging
collaborator (the consumer of the keys built by `SenderBiNode._execute`),
which is not under the reviewed sources.  Returns the parts before and
after the first occurrence of `sep`, or `none` when `sep` never occurs. -/
def splitFirst (sep : List Char) : List Char → Option (List Char × List Char)
  | [] => none
  | c :: cs =>
      if leadsWith sep (c :: cs) then some ([], (c :: cs).drop sep.length)
      else
        match splitFirst sep cs with
        | some pr => some (c :: pr.1, pr.2)
        | none => none

/-!
Embedding of the specialized `HiNetHTMLTranslator`.
-/

/-- One element per `f.write(...)` call site of `HiNetHTMLTranslator`,
carrying the data formatted into the written line. -/
inductive HtmlOut where
  | openTable (typeId : String)
  | closeTable
  | inDim (d : Int)
  | outDim (d : Int)
  | trTd
  | tdTrClose
  | trOpen
  | trClose
  | tdOpen
  | tdClose
  | trTdNodename
  | trTdNodeparams
  | text (s : String)
  | repetitions (n : Nat)
deriving DecidableEq

/-- The `node_param_translators` list: pairs of an instance test (the
`isinstance(node, node_param_trans[0])` check, modelled as a Boolean
predicate on nodes) and a function producing the HTML parameter lines. -/
abbrev NodeParamTranslators := List ((HNode → Bool) × (HNode → List String))

/-- The lookup loop of `HiNetHTMLTranslator._translate_standard_node`:
`for node_param_trans in self._node_param_translators[::-1]:` with a
`break` at the first matching instance test. -/
def lookup_param_translator (regs : NodeParamTranslators) (n : HNode) :
    Option ((HNode → Bool) × (HNode → List String)) :=
  List.find? (fun pt => pt.1 n) regs.reverse

/-- The write performed for the matching parameter translator: the lines
joined by `" <br>\n"` are written even when they join to the empty
string, while no write at all happens when no translator matches. -/
def param_writes (regs : NodeParamTranslators) (n : HNode) : List HtmlOut :=
  match lookup_param_translator regs n with
  | some pt => [HtmlOut.text (String.intercalate " <br>\n" (pt.2 n))]
  | none => []

/-- `HiNetHTMLTranslator._open_node_env`: the `<table class=...>` line, the
in-dim line (skipped for the `"flow"` and `"flownode"` type ids), a
`<tr><td>` line and the `<table class="nodestruct">` line. -/
def open_node_env (input_dim : Int) (type_id : String) : List HtmlOut :=
  [HtmlOut.openTable type_id]
    ++ (if type_id = "flow" ∨ type_id = "flownode" then [] else [HtmlOut.inDim input_dim])
    ++ [HtmlOut.trTd, HtmlOut.openTable "nodestruct"]

/-- `HiNetHTMLTranslator._close_node_env`: `</table>`, `</td></tr>`, the
out-dim lines (skipped for the `"flow"` and `"flownode"` type ids) and the
final `</table>`. -/
def close_node_env (output_dim : Int) (type_id : String) : List HtmlOut :=
  [HtmlOut.closeTable, HtmlOut.tdTrClose]
    ++ (if type_id = "flow" ∨ type_id = "flownode" then []
        else [HtmlOut.outDim output_dim, HtmlOut.tdTrClose])
    ++ [HtmlOut.closeTable]

/-- `HiNetHTMLTranslator._translate_standard_node` (overridden method,
also reached for objects outside the three special classes through the
`else` branch of the inherited `_translate_node`). -/
def html_translate_standard_node (regs : NodeParamTranslators) (n : HNode) : List HtmlOut :=
  open_node_env n.input_dim "node"
    ++ [HtmlOut.trTdNodename, HtmlOut.text n.name, HtmlOut.tdTrClose, HtmlOut.trTdNodeparams]
    ++ param_writes regs n
    ++ [HtmlOut.tdTrClose]
    ++ close_node_env n.output_dim "node"

mutual

/-- The inherited `HiNetTranslator._translate_node` dispatch, resolving to
the overridden HTML branch methods of `HiNetHTMLTranslator`. -/
def html_translate_node (regs : NodeParamTranslators) : HNode → List HtmlOut
  | HNode.flownode inner i o _ =>
      open_node_env i "flownode"
        ++ html_rows regs inner
        ++ close_node_env o "flownode"
  | HNode.clonelayer p c i o nm =>
      open_node_env i "layer"
        ++ [HtmlOut.trTdNodename, HtmlOut.text (nm ++ "<br><br>"),
            HtmlOut.repetitions c, HtmlOut.tdClose, HtmlOut.tdOpen]
        ++ html_translate_node regs p
        ++ [HtmlOut.tdTrClose]
        ++ close_node_env o "node"
  | HNode.layer ch i o _ =>
      open_node_env i "layer"
        ++ [HtmlOut.trOpen]
        ++ html_cols regs ch
        ++ [HtmlOut.trClose]
        ++ close_node_env o "node"
  | n => html_translate_standard_node regs n

/-- The per-node loop shared by `HiNetHTMLTranslator._translate_flow` and
`HiNetHTMLTranslator._translate_flownode`: each child is wrapped in a
`<tr><td>` / `</td></tr>` pair. -/
def html_rows (regs : NodeParamTranslators) : List HNode → List HtmlOut
  | [] => []
  | n :: ns =>
      [HtmlOut.trTd] ++ html_translate_node regs n ++ [HtmlOut.tdTrClose] ++ html_rows regs ns

/-- The per-node loop of `HiNetHTMLTranslator._translate_layer`: each
child is wrapped in a `<td>` / `</td>` pair. -/
def html_cols (regs : NodeParamTranslators) : List HNode → List HtmlOut
  | [] => []
  | n :: ns =>
      [HtmlOut.tdOpen] ++ html_translate_node regs n ++ [HtmlOut.tdClose] ++ html_cols regs ns

end

/-- `HiNetHTMLTranslator._translate_flow`: open the `"flow"` environment,
wrap each node in a `<tr><td>` / `</td></tr>` pair, write the stray extra
`</td></tr>` of the source, close the environment.  The dimension
arguments of the open and close helpers are never read for the `"flow"`
type id, so `0` is passed. -/
def html_translate_flow (regs : NodeParamTranslators) (flow : List HNode) : List HtmlOut :=
  open_node_env 0 "flow"
    ++ html_rows regs flow
    ++ [HtmlOut.tdTrClose]
    ++ close_node_env 0 "flow"

/-- The mutable attributes of a `HiNetHTMLTranslator` instance: the
parameter-translator list and the `_html_file` binding (a sink is modelled
by a numeric id; `none` models the unbound `None` state). -/
structure HiNetHTMLTranslatorState where
  node_param_translators : NodeParamTranslators
  html_file : Option Nat

/-- `HiNetHTMLTranslator.write_flow_to_file`: the method stores the new
sink into `self._html_file` without inspecting the previous binding, runs
the flow translation (all writes go to the newly bound sink), and resets
the binding to `None`.  The result is the updated instance state, the
sink that received the writes, and the written line sequence. -/
def write_flow_to_file (st : HiNetHTMLTranslatorState) (flow : List HNode) (html_file : Nat) :
    HiNetHTMLTranslatorState × Nat × List HtmlOut :=
  ({ st with html_file := none },
   html_file,
   html_translate_flow st.node_param_translators flow)

/-!
Open and close markers and balance of the written markup.
-/

/-- A written line opening a markup container (a `<table ...>` line). -/
def is_open_marker : HtmlOut → Bool
  | HtmlOut.openTable _ => true
  | _ => false

/-- A written line closing a markup container (a `</table>` line). -/
def is_close_marker : HtmlOut → Bool
  | HtmlOut.closeTable => true
  | _ => false

/-- Number of open markers in a write sequence. -/
def open_count (l : List HtmlOut) : Nat := l.countP is_open_marker

/-- Number of close markers in a write sequence. -/
def close_count (l : List HtmlOut) : Nat := l.countP is_close_marker

/-- A write sequence is balanced when open and close markers are equally
many, and no prefix (`l.take k` for any `k`) has more close markers than
open markers. -/
def BalancedWrites (l : List HtmlOut) : Prop :=
  open_count l = close_count l ∧ ∀ k, close_count (l.take k) ≤ open_count (l.take k)

/-!
Concrete material used by the witness theorems.
-/

/-- A concrete registry predicate matching standard nodes tagged 0. -/
def demo_pred : HNode → Bool
  | HNode.standard _ _ _ tg => tg == 0
  | _ => false

/-- A registry predicate matching nothing. -/
def demo_pred_false : HNode → Bool := fun _ => false

/-- A concrete parameter renderer. -/
def demo_r1 : HNode → List String := fun _ => ["detail one"]

/-- Another concrete parameter renderer. -/
def demo_r2 : HNode → List String := fun _ => ["detail two"]

/-- A concrete standard node. -/
def demo_node : HNode := HNode.standard "a" 1 1 0

/-!
Balance lemmas for the written markup.
-/

theorem open_count_append (a b : List HtmlOut) :
    open_count (a ++ b) = open_count a + open_count b :=
  List.countP_append is_open_marker a b

theorem close_count_append (a b : List HtmlOut) :
    close_count (a ++ b) = close_count a + close_count b :=
  List.countP_append is_close_marker a b

theorem close_count_take_le (l : List HtmlOut) (k : Nat) :
    close_count (l.take k) ≤ close_count l :=
  (List.take_sublist k l).countP_le is_close_marker

theorem open_count_open_node_env (i : Int) (t : String) :
    open_count (open_node_env i t) = 2 := by
  unfold open_node_env
  split <;>
    simp [open_count, List.countP_append, List.countP_cons, List.countP_nil, is_open_marker]

theorem close_count_open_node_env (i : Int) (t : String) :
    close_count (open_node_env i t) = 0 := by
  unfold open_node_env
  split <;>
    simp [close_count, List.countP_append, List.countP_cons, List.countP_nil, is_close_marker]

theorem open_count_close_node_env (o : Int) (t : String) :
    open_count (close_node_env o t) = 0 := by
  unfold close_node_env
  split <;>
    simp [open_count, List.countP_append, List.countP_cons, List.countP_nil, is_open_marker]

theorem close_count_close_node_env (o : Int) (t : String) :
    close_count (close_node_env o t) = 2 := by
  unfold close_node_env
  split <;>
    simp [close_count, List.countP_append, List.countP_cons, List.countP_nil, is_close_marker]

theorem balanced_nil : BalancedWrites [] :=
  ⟨rfl, fun k => by rw [List.take_nil]; exact Nat.le_refl _⟩

theorem balanced_of_no_markers {l : List HtmlOut}
    (ho : open_count l = 0) (hc : close_count l = 0) : BalancedWrites l := by
  refine ⟨ho.trans hc.symm, fun k => ?_⟩
  have h1 := close_count_take_le l k
  omega

theorem balanced_append {a b : List HtmlOut}
    (ha : BalancedWrites a) (hb : BalancedWrites b) : BalancedWrites (a ++ b) := by
  obtain ⟨ha1, ha2⟩ := ha
  obtain ⟨hb1, hb2⟩ := hb
  constructor
  · rw [open_count_append, close_count_append, ha1, hb1]
  · intro k
    rw [List.take_append_eq_append_take, close_count_append, open_count_append]
    have h1 := ha2 k
    have h2 := hb2 (k - a.length)
    omega

theorem balanced_wrap_core {A m C : List HtmlOut}
    (hAo : open_count A = 2) (hAc : close_count A = 0)
    (hCo : open_count C = 0) (hCc : close_count C = 2)
    (hm : BalancedWrites m) : BalancedWrites (A ++ m ++ C) := by
  obtain ⟨hm1, hm2⟩ := hm
  constructor
  · rw [open_count_append, open_count_append, close_count_append, close_count_append,
        hAo, hAc, hCo, hCc, hm1]
    omega
  · intro k
    rw [List.take_append_eq_append_take, List.take_append_eq_append_take,
        close_count_append, close_count_append, open_count_append, open_count_append]
    by_cases hk : k ≤ A.length + m.length
    · have hz : k - (A ++ m).length = 0 := by
        rw [List.length_append]; omega
      rw [hz]
      simp only [List.take_zero]
      have h1 : close_count (A.take k) = 0 := by
        have h := close_count_take_le A k
        omega
      have h2 := hm2 (k - A.length)
      have h3 : close_count ([] : List HtmlOut) = 0 := rfl
      have h4 : open_count ([] : List HtmlOut) = 0 := rfl
      omega
    · have hka : A.length ≤ k := by omega
      have hkm : m.length ≤ k - A.length := by omega
      rw [List.take_of_length_le hka, List.take_of_length_le hkm]
      have h1 := close_count_take_le C (k - (A ++ m).length)
      rw [hAo, hAc, hm1]
      omega

theorem balanced_wrap (i o : Int) (t u : String) (m : List HtmlOut) {l : List HtmlOut}
    (hl : l = open_node_env i t ++ m ++ close_node_env o u)
    (hm : BalancedWrites m) : BalancedWrites l := by
  subst hl
  exact balanced_wrap_core (open_count_open_node_env i t) (close_count_open_node_env i t)
    (open_count_close_node_env o u) (close_count_close_node_env o u) hm

theorem open_count_param_writes (regs : NodeParamTranslators) (n : HNode) :
    open_count (param_writes regs n) = 0 := by
  unfold param_writes
  split <;> rfl

theorem close_count_param_writes (regs : NodeParamTranslators) (n : HNode) :
    close_count (param_writes regs n) = 0 := by
  unfold param_writes
  split <;> rfl

theorem balanced_html_standard (regs : NodeParamTranslators) (n : HNode) :
    BalancedWrites (html_translate_standard_node regs n) := by
  refine balanced_wrap n.input_dim n.output_dim "node" "node"
      ([HtmlOut.trTdNodename, HtmlOut.text n.name, HtmlOut.tdTrClose, HtmlOut.trTdNodeparams]
        ++ param_writes regs n ++ [HtmlOut.tdTrClose]) ?_ ?_
  · simp [html_translate_standard_node, List.append_assoc]
  · refine balanced_append (balanced_append ?_ ?_) ?_
    · exact balanced_of_no_markers rfl rfl
    · exact balanced_of_no_markers (open_count_param_writes regs n) (close_count_param_writes regs n)
    · exact balanced_of_no_markers rfl rfl

mutual

theorem balanced_html_node (regs : NodeParamTranslators) :
    (n : HNode) → BalancedWrites (html_translate_node regs n)
  | HNode.flownode inner i o _ => by
      refine balanced_wrap i o "flownode" "flownode" (html_rows regs inner) ?_ ?_
      · simp [html_translate_node]
      · exact balanced_html_rows regs inner
  | HNode.clonelayer p c i o nm => by
      refine balanced_wrap i o "layer" "node"
          ([HtmlOut.trTdNodename, HtmlOut.text (nm ++ "<br><br>"), HtmlOut.repetitions c,
            HtmlOut.tdClose, HtmlOut.tdOpen] ++ html_translate_node regs p ++ [HtmlOut.tdTrClose])
          ?_ ?_
      · simp [html_translate_node, List.append_assoc]
      · exact balanced_append (balanced_append (balanced_of_no_markers rfl rfl)
          (balanced_html_node regs p)) (balanced_of_no_markers rfl rfl)
  | HNode.layer ch i o _ => by
      refine balanced_wrap i o "layer" "node"
          ([HtmlOut.trOpen] ++ html_cols regs ch ++ [HtmlOut.trClose]) ?_ ?_
      · simp [html_translate_node, List.append_assoc]
      · exact balanced_append (balanced_append (balanced_of_no_markers rfl rfl)
          (balanced_html_cols regs ch)) (balanced_of_no_markers rfl rfl)
  | HNode.standard nm i o tg => by
      have h : html_translate_node regs (HNode.standard nm i o tg)
          = html_translate_standard_node regs (HNode.standard nm i o tg) := by
        simp [html_translate_node]
      rw [h]
      exact balanced_html_standard regs (HNode.standard nm i o tg)
  | HNode.other nm i o tg => by
      have h : html_translate_node regs (HNode.other nm i o tg)
          = html_translate_standard_node regs (HNode.other nm i o tg) := by
        simp [html_translate_node]
      rw [h]
      exact balanced_html_standard regs (HNode.other nm i o tg)

theorem balanced_html_rows (regs : NodeParamTranslators) :
    (ns : List HNode) → BalancedWrites (html_rows regs ns)
  | [] => by
      have h : html_rows regs [] = [] := by simp [html_rows]
      rw [h]
      exact balanced_nil
  | n :: ns => by
      have h : html_rows regs (n :: ns)
          = [HtmlOut.trTd] ++ html_translate_node regs n
            ++ [HtmlOut.tdTrClose] ++ html_rows regs ns := by
        simp [html_rows]
      rw [h]
      exact balanced_append (balanced_append (balanced_append (balanced_of_no_markers rfl rfl)
        (balanced_html_node regs n)) (balanced_of_no_markers rfl rfl))
        (balanced_html_rows regs ns)

theorem balanced_html_cols (regs : NodeParamTranslators) :
    (ns : List HNode) → BalancedWrites (html_cols regs ns)
  | [] => by
      have h : html_cols regs [] = [] := by simp [html_cols]
      rw [h]
      exact balanced_nil
  | n :: ns => by
      have h : html_cols regs (n :: ns)
          = [HtmlOut.tdOpen] ++ html_translate_node regs n
            ++ [HtmlOut.tdClose] ++ html_cols regs ns := by
        simp [html_cols]
      rw [h]
      exact balanced_append (balanced_append (balanced_append (balanced_of_no_markers rfl rfl)
        (balanced_html_node regs n)) (balanced_of_no_markers rfl rfl))
        (balanced_html_cols regs ns)

end

theorem balanced_html_flow (regs : NodeParamTranslators) (fl : List HNode) :
    BalancedWrites (html_translate_flow regs fl) := by
  refine balanced_wrap 0 0 "flow" "flow" (html_rows regs fl ++ [HtmlOut.tdTrClose]) ?_ ?_
  · simp [html_translate_flow, List.append_assoc]
  · exact balanced_append (balanced_html_rows regs fl) (balanced_of_no_markers rfl rfl)

/-!
Claim theorems.
-/

/-- C1: for every Flow rendered through `write_flow_to_file`, the total
number of open markers written equals the total number of close markers
written, and in every prefix of the write sequence the running
close-marker count never exceeds the running open-marker count. -/
theorem markup_open_close_balanced (st : HiNetHTMLTranslatorState) (flow : List HNode)
    (sink : Nat) :
    open_count (write_flow_to_file st flow sink).2.2
      = close_count (write_flow_to_file st flow sink).2.2
    ∧ ∀ k, close_count ((write_flow_to_file st flow sink).2.2.take k)
        ≤ open_count ((write_flow_to_file st flow sink).2.2.take k) :=
  balanced_html_flow st.node_param_translators flow

/-- C2: translating a CloneLayer with prototype `p` and child count `c`
yields the sequence of length `c` whose every element is the one computed
translation of `p`, and enters `_translate_node` exactly once beyond the
single recursive translation of the prototype, independently of `c`. -/
theorem clonelayer_translated_once (p : HNode) (c : Nat) (i o : Int) (nm : String) :
    translate_node_counted (HNode.clonelayer p c i o nm)
      = (Translation.seq (List.replicate c (translate_node_counted p).1),
         (translate_node_counted p).2 + 1)
    ∧ (List.replicate c (translate_node_counted p).1).length = c
    ∧ ∀ t, t ∈ List.replicate c (translate_node_counted p).1 → t = (translate_node_counted p).1 := by
  refine ⟨?_, List.length_replicate c _, fun t ht => List.eq_of_mem_replicate ht⟩
  simp [translate_node_counted]

theorem clonelayer_translated_once_witness :
    (Translation.node (HNode.standard "w" 1 1 0)
        ∈ List.replicate 2 (translate_node_counted (HNode.standard "w" 1 1 0)).1)
    ∧ Translation.node (HNode.standard "w" 1 1 0)
        = (translate_node_counted (HNode.standard "w" 1 1 0)).1 := by
  have hm : Translation.node (HNode.standard "w" 1 1 0)
      ∈ List.replicate 2 (translate_node_counted (HNode.standard "w" 1 1 0)).1 := by
    simp [translate_node_counted, List.mem_replicate]
  exact ⟨hm, (clonelayer_translated_once (HNode.standard "w" 1 1 0) 2 1 1 "cl").2.2 _ hm⟩

/-- C3 counterexample: the generic `_translate_node` applied to an object
outside the closed variant set does not signal any error: it produces the
passthrough result of the standard-node branch, refuting the claim that
such a node makes the translator fail with an UnsupportedVariant error
instead of producing a result. -/
theorem unknown_variant_passthrough_cex :
    translate_node (HNode.other "ghost" 3 4 7) = Translation.node (HNode.other "ghost" 3 4 7) := by
  simp [translate_node]

/-- C3 amended: the generic translator never fails; a node that is none of
FlowNode, CloneLayer, Layer — including a variant outside the closed set —
falls through to the standard-node branch and is returned unchanged. -/
theorem unknown_variant_passthrough (nm : String) (i o : Int) (tg : Nat) :
    translate_node (HNode.other nm i o tg) = Translation.node (HNode.other nm i o tg) := by
  simp [translate_node]

/-- C4: the generic translation of a FlowNode equals the generic
translation of its inner Flow (the FlowNode adds no wrapping level). -/
theorem flownode_transparency (inner : List HNode) (i o : Int) (nm : String) :
    translate_node (HNode.flownode inner i o nm) = Translation.seq (translate_flow inner) := by
  have h : ∀ g : List HNode, translate_flownode g = translate_flow g := by
    intro g
    induction g with
    | nil => simp [translate_flownode, translate_flow]
    | cons n ns ih => simp [translate_flownode, translate_flow, ih]
  simp [translate_node, h inner]

/-- C5: with two registry entries carrying the same predicate registered
in order `[(P, R1), (P, R2)]`, a matching node is rendered by the
last-registered entry `R2`: the list is scanned in reverse registration
order and the first match wins. -/
theorem registry_last_registered_wins (P : HNode → Bool) (R1 R2 : HNode → List String)
    (n : HNode) (h : P n = true) :
    lookup_param_translator [(P, R1), (P, R2)] n = some (P, R2)
    ∧ param_writes [(P, R1), (P, R2)] n
      = [HtmlOut.text (String.intercalate " <br>\n" (R2 n))] := by
  have h1 : lookup_param_translator [(P, R1), (P, R2)] n = some (P, R2) := by
    simp [lookup_param_translator, List.find?, h]
  exact ⟨h1, by simp [param_writes, h1]⟩

theorem registry_last_registered_wins_witness :
    demo_pred demo_node = true
    ∧ lookup_param_translator [(demo_pred, demo_r1), (demo_pred, demo_r2)] demo_node
        = some (demo_pred, demo_r2) :=
  ⟨rfl, (registry_last_registered_wins demo_pred demo_r1 demo_r2 demo_node rfl).1⟩

/-- C6 counterexample: invoking `write_flow_to_file` on an instance that
is already bound to a sink does not fail and does perform writes: on a
concrete one-node flow the call issued while `html_file = some 0` produces
a nonempty write sequence, refuting the claim that such a call fails
immediately with no writes performed. -/
theorem reentrant_call_writes_cex :
    (write_flow_to_file { node_param_translators := [], html_file := some 0 }
        [HNode.standard "a" 1 1 0] 1).2.2 ≠ [] := by
  simp [write_flow_to_file, html_translate_flow, open_node_env]

/-- C6 amended: `write_flow_to_file` performs no reentrancy check; a call
on an instance already bound to a sink simply rebinds to the new sink and
behaves exactly like a call on an unbound instance (same final state, same
sink written, same write sequence). -/
theorem reentrant_call_ignores_binding (regs : NodeParamTranslators) (s : Nat)
    (flow : List HNode) (sink : Nat) :
    write_flow_to_file { node_param_translators := regs, html_file := some s } flow sink
      = write_flow_to_file { node_param_translators := regs, html_file := none } flow sink := rfl

/-- C7: when no registry entry matches a StandardNode, no error arises:
the parameter lookup yields nothing, no parameter line is written, and the
node still renders as the complete markup block with an empty detail block
between the nodeparams markers. -/
theorem registry_miss_empty_detail (regs : NodeParamTranslators) (nm : String) (i o : Int)
    (tg : Nat) (h : ∀ pt ∈ regs, pt.1 (HNode.standard nm i o tg) = false) :
    param_writes regs (HNode.standard nm i o tg) = []
    ∧ html_translate_node regs (HNode.standard nm i o tg)
      = open_node_env i "node"
        ++ [HtmlOut.trTdNodename, HtmlOut.text nm, HtmlOut.tdTrClose, HtmlOut.trTdNodeparams]
        ++ [HtmlOut.tdTrClose]
        ++ close_node_env o "node" := by
  have hnone : lookup_param_translator regs (HNode.standard nm i o tg) = none := by
    unfold lookup_param_translator
    apply List.find?_eq_none.mpr
    intro pt hpt
    have hf := h pt (List.mem_reverse.mp hpt)
    simp [hf]
  have h1 : param_writes regs (HNode.standard nm i o tg) = [] := by
    simp [param_writes, hnone]
  refine ⟨h1, ?_⟩
  simp [html_translate_node, html_translate_standard_node, h1, HNode.input_dim,
    HNode.output_dim, HNode.name, List.append_assoc]

theorem registry_miss_empty_detail_witness :
    (∀ pt ∈ [(demo_pred_false, demo_r1)], pt.1 (HNode.standard "a" 1 1 0) = false)
    ∧ param_writes [(demo_pred_false, demo_r1)] (HNode.standard "a" 1 1 0) = [] := by
  have h : ∀ pt ∈ [(demo_pred_false, demo_r1)], pt.1 (HNode.standard "a" 1 1 0) = false := by
    intro pt hpt
    have he := List.mem_singleton.mp hpt
    subst he
    rfl
  exact ⟨h, (registry_miss_empty_detail [(demo_pred_false, demo_r1)] "a" 1 1 0 h).1⟩

/-- C8: the generic translation of a Flow all of whose nodes are
StandardNodes is the same-length sequence of the nodes themselves (the
default standard-node branch is a passthrough). -/
theorem standard_flow_passthrough (fl : List HNode)
    (h : ∀ n ∈ fl, HNode.isStandard n = true) :
    translate_flow fl = fl.map Translation.node
    ∧ (translate_flow fl).length = fl.length := by
  have h1 : ∀ g : List HNode, (∀ n ∈ g, HNode.isStandard n = true) →
      translate_flow g = g.map Translation.node := by
    intro g
    induction g with
    | nil => intro _; rfl
    | cons n ns ih =>
        intro hg
        have hn := hg n (List.mem_cons_self n ns)
        have hns := ih (fun m hm => hg m (List.mem_cons_of_mem n hm))
        cases n with
        | standard nm i o tg => simp [translate_flow, translate_node, hns]
        | flownode inner i o nm => simp [HNode.isStandard] at hn
        | layer ch i o nm => simp [HNode.isStandard] at hn
        | clonelayer p c i o nm => simp [HNode.isStandard] at hn
        | other nm i o tg => simp [HNode.isStandard] at hn
  have h2 := h1 fl h
  exact ⟨h2, by rw [h2, List.length_map]⟩

theorem standard_flow_passthrough_witness :
    (∀ n ∈ [HNode.standard "a" 1 1 0, HNode.standard "b" 2 2 1],
        HNode.isStandard n = true)
    ∧ translate_flow [HNode.standard "a" 1 1 0, HNode.standard "b" 2 2 1]
        = [HNode.standard "a" 1 1 0, HNode.standard "b" 2 2 1].map Translation.node := by
  have h : ∀ n ∈ [HNode.standard "a" 1 1 0, HNode.standard "b" 2 2 1],
      HNode.isStandard n = true := by
    intro n hn
    rcases List.mem_cons.mp hn with he | hn2
    · subst he; rfl
    · have he2 := List.mem_singleton.mp hn2
      subst he2; rfl
  exact ⟨h, (standard_flow_passthrough _ h).1⟩

/-- C9: for a recipient id that does not contain the separator token,
splitting the message key built by `SenderBiNode._execute` on the first
occurrence of the separator recovers exactly the recipient id and the
payload name. -/
theorem message_key_roundtrip (rid : List Char) (h : hasSub MSG_ID_SEP rid = false) :
    splitFirst MSG_ID_SEP (sender_key rid) = some (rid, msg_x_name) := by
  induction rid with
  | nil =>
      simp [sender_key, MSG_ID_SEP, msg_x_name, splitFirst, leadsWith]
  | cons c cs ih =>
      have h0 := h
      simp only [hasSub, Bool.or_eq_false_iff] at h0
      have key_eq : sender_key (c :: cs) = c :: sender_key cs := by
        simp [sender_key]
      have hlead2 : leadsWith MSG_ID_SEP (c :: sender_key cs) = false := by
        cases cs with
        | nil =>
            simp [sender_key, MSG_ID_SEP, msg_x_name, leadsWith]
        | cons d cs2 =>
            have hl := h0.1
            simp only [MSG_ID_SEP, leadsWith, Bool.and_true] at hl
            simp only [sender_key, List.cons_append, MSG_ID_SEP, leadsWith, Bool.and_true]
            exact hl
      rw [key_eq]
      have e1 : splitFirst MSG_ID_SEP (c :: sender_key cs)
          = match splitFirst MSG_ID_SEP (sender_key cs) with
            | some pr => some (c :: pr.1, pr.2)
            | none => none := by
        simp [splitFirst, hlead2]
      rw [e1, ih h0.2]

theorem message_key_roundtrip_witness :
    hasSub MSG_ID_SEP ['n', 'o', 'd', 'e', '1'] = false
    ∧ splitFirst MSG_ID_SEP (sender_key ['n', 'o', 'd', 'e', '1'])
        = some (['n', 'o', 'd', 'e', '1'], msg_x_name) :=
  ⟨by decide, message_key_roundtrip ['n', 'o', 'd', 'e', '1'] (by decide)⟩

/-- C10: `SenderBiNode._execute` always stores the original `x` in the
message — under the addressed key when the recipient id is a nonempty
string, under the bare payload name when it is `None`, with the empty
string behaving like `None` — and a truthy `no_x` nulls the returned data
while the message still carries the original `x`. -/
theorem sender_execute_message {α : Type} (x : α) (no_x : Bool) (rid : List Char) :
    (sender_execute none x no_x).2 = [(msg_x_name, x)]
    ∧ sender_execute (some ([] : List Char)) x no_x = sender_execute none x no_x
    ∧ (rid ≠ [] → (sender_execute (some rid) x no_x).2 = [(sender_key rid, x)])
    ∧ (no_x = true → (sender_execute (some rid) x no_x).1 = none)
    ∧ (no_x = false → (sender_execute (some rid) x no_x).1 = some x) := by
  refine ⟨rfl, rfl, ?_, ?_, ?_⟩
  · intro hne
    cases rid with
    | nil => exact absurd rfl hne
    | cons c cs => rfl
  · intro hx
    subst hx
    rfl
  · intro hx
    subst hx
    rfl

theorem sender_execute_message_witness :
    (['a'] : List Char) ≠ []
    ∧ (sender_execute (some ['a']) (7 : Nat) true).2 = [(sender_key ['a'], 7)]
    ∧ (sender_execute (some ['a']) (7 : Nat) true).1 = none :=
  ⟨by decide, (sender_execute_message 7 true ['a']).2.2.1 (by decide),
    (sender_execute_message 7 true ['a']).2.2.2.1 rfl⟩
